import Mathlib

/-!
Verification of the chunked-retrieval question-answering utility.

The program is embedded shallowly: Python strings become `List Char`,
Python `str.split()` becomes `pySplit`, `" ".join` becomes `pyJoin`,
slicing becomes `pySlice`, and the chunking `while` loop becomes the
fuel-indexed `chunkLoop` (returning `none` when the fuel bound is reached,
which models non-termination of the source loop when no fuel suffices).
The model-query collaborator is a parameter returning `Except`, whose
`error` case models a raised exception that the source catches.
-/

/-- Python whitespace test used by `str.split` and `str.strip`
(space, tab, newline, carriage return, vertical tab, form feed). -/
def pyIsSpace (c : Char) : Bool :=
  c = ' ' || c = '\t' || c = '\n' || c = '\r' || c = Char.ofNat 11 || c = Char.ofNat 12

/-- Accumulator-based scanner implementing Python `str.split()`:
`cur` holds the current (reversed) in-progress word. -/
def splitAux : List Char → List Char → List (List Char)
  | [], cur => if cur.isEmpty then [] else [cur.reverse]
  | c :: cs, cur =>
    if pyIsSpace c then
      if cur.isEmpty then splitAux cs [] else cur.reverse :: splitAux cs []
    else splitAux cs (c :: cur)

/-- Python `text.split()`: whitespace-delimited words, empty words dropped. -/
def pySplit (s : List Char) : List (List Char) := splitAux s []

/-- Python `sep.join(xs)`. -/
def pyJoin (sep : List Char) : List (List Char) → List Char
  | [] => []
  | [w] => w
  | w :: ws => w ++ sep ++ pyJoin sep ws

/-- Python `s.strip()`. -/
def pyStrip (s : List Char) : List Char :=
  ((s.dropWhile pyIsSpace).reverse.dropWhile pyIsSpace).reverse

/-- Source `estimate_tokens(text)`: `len(text.split())`. -/
def estimate_tokens (text : List Char) : Nat := (pySplit text).length

/-- Clamp of a Python slice bound to an index of a list of length `len`
(negative indices count from the end, as in Python). -/
def pyBound (len : Nat) (i : Int) : Nat :=
  if i < 0 then ((len : Int) + i).toNat else min i.toNat len

/-- Python `l[s:e]` for integer bounds. -/
def pySlice (l : List α) (s e : Int) : List α :=
  (l.take (pyBound l.length e)).drop (pyBound l.length s)

/-- The `while start < len(tokens)` loop of `split_text_into_chunks`,
indexed by fuel; `none` means the loop has not terminated within the
given number of iterations. Each iteration emits
the single-space join of tokens[start:min(start + max_tokens, len(tokens))] and
advances `start` by `max_tokens - overlap`. -/
def chunkLoop (tokens : List (List Char)) (maxTokens overlap : Int) :
    Nat → Int → Option (List (List Char))
  | 0, _ => none
  | fuel + 1, start =>
    if start < (tokens.length : Int) then
      match chunkLoop tokens maxTokens overlap fuel (start + (maxTokens - overlap)) with
      | none => none
      | some rest =>
        some (pyJoin [' ']
          (pySlice tokens start (min (start + maxTokens) (tokens.length : Int))) :: rest)
    else some []

/-- Source `split_text_into_chunks(text, max_tokens, overlap)`.
The fuel `len(tokens) + 1` is always sufficient when `overlap < max_tokens`
(the step is then at least one word), so a `none` result means the source
loop runs forever on this input. -/
def split_text_into_chunks (text : List Char) (maxTokens overlap : Int) :
    Option (List (List Char)) :=
  chunkLoop (pySplit text) maxTokens overlap ((pySplit text).length + 1) 0

/-- Word-level reference form of the chunk loop (all-Nat indices): the chunk
starting at `s` is `tokens[s : s + W]` and the start advances by `d = W - O`. -/
def wordChunksF (tokens : List (List Char)) (W d : Nat) :
    Nat → Nat → List (List (List Char))
  | 0, _ => []
  | fuel + 1, s =>
    if s < tokens.length then (tokens.drop s).take W :: wordChunksF tokens W d fuel (s + d)
    else []

/-- Python substring test `needle in haystack`. -/
def containsSub (needle : List Char) : List Char → Bool
  | [] => needle.isEmpty
  | c :: rest => needle.isPrefixOf (c :: rest) || containsSub needle rest

/-- Apostrophe character (kept out of string literals). -/
def apos : Char := Char.ofNat 39

/-- Refusal marker string number one of the acceptance check. -/
def markerIDK : List Char := "I don".toList ++ [apos] ++ "t know".toList

/-- Refusal marker string number two of the acceptance check. -/
def markerS : List Char := "Sorry".toList

/-- The acceptance check at line 106 of the source:
accept when neither marker occurs in the response. -/
def acceptAnswer (response : List Char) : Bool :=
  !(containsSub markerIDK response) && !(containsSub markerS response)

/-- Prefix of the string returned by `query_local_model` when the request
raises: the cross-mark character followed by " Error: ". -/
def errPrefix : List Char := Char.ofNat 10060 :: " Error: ".toList

/-- Source `query_local_model(prompt)`: the HTTP collaborator is a parameter;
a raised exception (the `Except.error` case) is caught and turned into the
error-prefixed message, a normal response is stripped. -/
def query_local_model (model : List Char → Except (List Char) (List Char))
    (prompt : List Char) : List Char :=
  match model prompt with
  | Except.ok r => pyStrip r
  | Except.error e => errPrefix ++ e

/-- The prompt template of the chunk loop (line 104 of the source). -/
def buildPrompt (chunk question : List Char) : List Char :=
  "Answer the following question based on this text:\n\n".toList ++ chunk ++
  "\n\nQuestion: ".toList ++ question ++ "\n\nAnswer:".toList

/-- The budget test at line 103 of the source:
`estimate_tokens(chunk) + estimate_tokens(question) <= 16000`. -/
def budgetOk (question chunk : List Char) : Bool :=
  decide (estimate_tokens chunk + estimate_tokens question ≤ 16000)

/-- The chunk loop of lines 102 to 109 of the source. The first component is
the accepted answer (if any); the second component is the trace of chunks for
which a query was actually issued, recorded so that theorems can speak about
which chunks were consulted. -/
def chunkSearch (question : List Char) (model : List Char → Except (List Char) (List Char)) :
    List (List Char) → Option (List Char) × List (List Char)
  | [] => (none, [])
  | chunk :: rest =>
    if budgetOk question chunk then
      if acceptAnswer (query_local_model model (buildPrompt chunk question)) then
        (some (query_local_model model (buildPrompt chunk question)), [chunk])
      else
        ((chunkSearch question model rest).1, chunk :: (chunkSearch question model rest).2)
    else chunkSearch question model rest

/-- The fixed fallback message of line 113 of the source. -/
def notFoundMsg : List Char :=
  Char.ofNat 129302 :: " I couldn".toList ++ [apos] ++
    "t find a confident answer in the PDF.".toList

/-- Chunking with the default parameters `max_tokens=16000, overlap=1000`
(always terminating, hence the default `[]` is never taken). -/
def splitD (text : List Char) : List (List Char) :=
  (split_text_into_chunks text 16000 1000).getD []

/-- The whole answer flow of lines 94 to 113 of the source: split the PDF
text with default parameters, run the chunk loop, and substitute the fixed
message when the final answer is falsy (unset or the empty string). -/
def answerSession (question pdfText : List Char)
    (model : List Char → Except (List Char) (List Char)) : List Char :=
  match (chunkSearch question model (splitD pdfText)).1 with
  | some a => if a.isEmpty then notFoundMsg else a
  | none => notFoundMsg

/-- Error prefix of `query_gpt` in the multi-document variant. -/
def gptErrPrefix : List Char := "Error: ".toList

/-- Variant `query_gpt(prompt)`: exceptions are caught and turned into an
error-prefixed message, normal responses are stripped. -/
def query_gpt (model : List Char → Except (List Char) (List Char))
    (prompt : List Char) : List Char :=
  match model prompt with
  | Except.ok r => pyStrip r
  | Except.error e => gptErrPrefix ++ e

/-- Right single quotation mark used inside the variant prompt template. -/
def rsq : Char := Char.ofNat 8217

/-- The exact refusal sentence the multi-document variant compares against. -/
def refusalExact : List Char := "I am sorry.".toList

/-- The prompt template of the multi-document variant (line 123). -/
def gptPrompt (chunk question : List Char) : List Char :=
  "Based on the following text from a document, answer the user".toList ++ [rsq] ++
  "s query:\n\n".toList ++ chunk ++ "\n\nUser".toList ++ [apos] ++
  "s query: ".toList ++ question ++
  ". If the answer is not found, respond with ".toList ++ [apos] ++
  "I am sorry.".toList ++ [apos]

/-- Inner chunk loop of the multi-document variant (lines 121 to 129):
a response is rejected exactly when it equals the fixed refusal sentence.
The second component again records the chunks actually queried. -/
def pdfChunkSearch (question : List Char)
    (model : List Char → Except (List Char) (List Char)) :
    List (List Char) → Option (List Char) × List (List Char)
  | [] => (none, [])
  | chunk :: rest =>
    if budgetOk question chunk then
      if query_gpt model (gptPrompt chunk question) = refusalExact then
        ((pdfChunkSearch question model rest).1,
          chunk :: (pdfChunkSearch question model rest).2)
      else
        (some (query_gpt model (gptPrompt chunk question)), [chunk])
    else pdfChunkSearch question model rest

/-- Outer document loop of the multi-document variant (lines 116 to 134):
documents are consulted in list order, each split with the default
parameters, and the whole search stops at the first accepted answer. -/
def pdfSearch (question : List Char)
    (model : List Char → Except (List Char) (List Char)) :
    List (List Char) → Option (List Char) × List (List Char)
  | [] => (none, [])
  | text :: rest =>
    match (pdfChunkSearch question model (splitD text)).1 with
    | some a => (some a, (pdfChunkSearch question model (splitD text)).2)
    | none =>
      ((pdfSearch question model rest).1,
        (pdfChunkSearch question model (splitD text)).2 ++ (pdfSearch question model rest).2)

/-- Test backend for the exception scenario: raises on the prompts of the
first two chunks (marker-free messages) and answers on any other prompt. -/
def c2cexModel (p : List Char) : Except (List Char) (List Char) :=
  if p = buildPrompt ['a'] ['q'] then Except.error ['x']
  else if p = buildPrompt ['b'] ['q'] then Except.error ['y']
  else Except.ok "Paris".toList

/-- Test backend raising with marker-containing messages on the prompts of
the first two chunks, answering on any other prompt. -/
def c2witModel (p : List Char) : Except (List Char) (List Char) :=
  if p = buildPrompt ['a'] ['q'] then Except.error markerS
  else if p = buildPrompt ['b'] ['q'] then Except.error markerS
  else Except.ok "Paris".toList

/-- Test backend that always answers with a refusal-marker sentence. -/
def c9Model : List Char → Except (List Char) (List Char) :=
  fun _ => Except.ok markerS

/-- Test backend for the variant loop: the chunk of the first document gets
the exact refusal sentence, every other prompt gets an answer. -/
def c8Model (p : List Char) : Except (List Char) (List Char) :=
  if p = gptPrompt ['a'] ['q'] then Except.ok refusalExact
  else Except.ok "Paris".toList

/-- Test backend answering the empty string on every prompt. -/
def okNilModel : List Char → Except (List Char) (List Char) :=
  fun _ => Except.ok []

/-- Text made of `n` copies of the single-letter word a. -/
def chunkA (n : Nat) : List Char := pyJoin [' '] (List.replicate n ['a'])

/-- Every word produced by the split scanner is non-empty and free of
whitespace, provided the accumulator is. -/
theorem splitAux_clean (l : List Char) : ∀ (cur : List Char),
    (∀ c ∈ cur, pyIsSpace c = false) →
    ∀ w ∈ splitAux l cur, w ≠ [] ∧ ∀ c ∈ w, pyIsSpace c = false := by
  induction l with
  | nil =>
    intro cur hcur w hw
    cases hcase : cur.isEmpty with
    | true => simp [splitAux, hcase] at hw
    | false =>
      simp [splitAux, hcase] at hw
      subst hw
      have hcur_ne : cur ≠ [] := by
        intro h
        subst h
        simp at hcase
      exact ⟨fun hrev => hcur_ne (by simpa using hrev),
             fun c hcm => hcur c (List.mem_reverse.mp hcm)⟩
  | cons a as ih =>
    intro cur hcur w hw
    cases ha : pyIsSpace a with
    | true =>
      cases hcase : cur.isEmpty with
      | true =>
        simp [splitAux, ha, hcase] at hw
        exact ih [] (by simp) w hw
      | false =>
        simp [splitAux, ha, hcase] at hw
        rcases hw with hw | hw
        · subst hw
          have hcur_ne : cur ≠ [] := by
            intro h
            subst h
            simp at hcase
          exact ⟨fun hrev => hcur_ne (by simpa using hrev),
                 fun c hcm => hcur c (List.mem_reverse.mp hcm)⟩
        · exact ih [] (by simp) w hw
    | false =>
      simp only [splitAux, ha, Bool.false_eq_true, if_false] at hw
      refine ih (a :: cur) ?_ w hw
      intro c hcm
      rcases List.mem_cons.mp hcm with h | h
      · subst h
        exact ha
      · exact hcur c h

/-- Words produced by `pySplit` are non-empty and free of whitespace. -/
theorem pySplit_clean (s : List Char) :
    ∀ w ∈ pySplit s, w ≠ [] ∧ ∀ c ∈ w, pyIsSpace c = false :=
  splitAux_clean s [] (by simp)

/-- Scanning a whitespace-free block prepends it (reversed) to the
accumulator. -/
theorem splitAux_append (w : List Char) : ∀ (l cur : List Char),
    (∀ c ∈ w, pyIsSpace c = false) →
    splitAux (w ++ l) cur = splitAux l (w.reverse ++ cur) := by
  induction w with
  | nil =>
    intro l cur _
    simp
  | cons a as ih =>
    intro l cur hw
    have ha : pyIsSpace a = false := hw a (by simp)
    simp only [List.cons_append, splitAux, ha, Bool.false_eq_true, if_false, List.append_eq]
    rw [ih l (a :: cur) (fun c hc => hw c (by simp [hc]))]
    simp

/-- Joining clean words with a single space and splitting again recovers
the word list; this is the split and join round trip. -/
theorem pySplit_pyJoin : ∀ (ws : List (List Char)),
    (∀ w ∈ ws, w ≠ [] ∧ ∀ c ∈ w, pyIsSpace c = false) →
    pySplit (pyJoin [' '] ws) = ws := by
  intro ws
  induction ws with
  | nil =>
    intro _
    rfl
  | cons w ws ih =>
    intro h
    have hne : w ≠ [] := (h w (by simp)).1
    have hclean : ∀ c ∈ w, pyIsSpace c = false := (h w (by simp)).2
    cases ws with
    | nil =>
      show splitAux (pyJoin [' '] [w]) [] = [w]
      have : pyJoin [' '] [w] = w ++ [] := by simp [pyJoin]
      rw [this, splitAux_append w [] [] hclean]
      have hre : w.reverse.isEmpty = false := by
        simp [List.isEmpty_iff, hne]
      simp [splitAux, hre]
    | cons w2 ws2 =>
      show splitAux (pyJoin [' '] (w :: w2 :: ws2)) [] = w :: w2 :: ws2
      have : pyJoin [' '] (w :: w2 :: ws2) = w ++ ([' '] ++ pyJoin [' '] (w2 :: ws2)) := by
        simp [pyJoin]
      rw [this, splitAux_append w _ [] hclean]
      have hre : w.reverse.isEmpty = false := by
        simp [List.isEmpty_iff, hne]
      have hsp : pyIsSpace ' ' = true := by decide
      simp only [List.cons_append, List.nil_append, List.append_nil, List.append_eq,
        splitAux, hsp, hre, Bool.false_eq_true, if_true, if_false, List.reverse_reverse]
      rw [show splitAux (pyJoin [' '] (w2 :: ws2)) [] = w2 :: ws2 from
        ih (fun x hx => h x (by simp [hx]))]

/-- Token estimate of a clean joined word list is its length. -/
theorem estimate_pyJoin (ws : List (List Char))
    (h : ∀ w ∈ ws, w ≠ [] ∧ ∀ c ∈ w, pyIsSpace c = false) :
    estimate_tokens (pyJoin [' '] ws) = ws.length := by
  rw [estimate_tokens, pySplit_pyJoin ws h]

/-- The slice taken in one loop iteration is the window of `W` words at `s`. -/
theorem pySlice_window (tokens : List (List Char)) (s : Nat) (W : Int)
    (hW : 0 ≤ W) (hs : s < tokens.length) :
    pySlice tokens (s : Int) (min ((s : Int) + W) (tokens.length : Int)) =
      (tokens.drop s).take W.toNat := by
  unfold pySlice pyBound
  have h1 : ¬ ((s : Int) < 0) := by omega
  have h2 : ¬ (min ((s : Int) + W) (tokens.length : Int) < 0) := by omega
  rw [if_neg h1, if_neg h2]
  have h3 : min (s : Int).toNat tokens.length = s := by omega
  have h4 : min (min ((s : Int) + W) ((tokens.length : Int))).toNat tokens.length
      = min (s + W.toNat) tokens.length := by omega
  rw [h3, h4, List.drop_take]
  refine List.take_eq_take.mpr ?_
  simp only [List.length_drop]
  omega

/-- With valid parameters the fueled loop, given enough fuel, returns the
joins of the word-level windows. -/
theorem chunkLoop_eq_wordChunksF (tokens : List (List Char)) (W O : Int)
    (h0 : 0 ≤ O) (h1 : O < W) :
    ∀ fuel (s : Nat), tokens.length - s < fuel →
      chunkLoop tokens W O fuel (s : Int) =
        some ((wordChunksF tokens W.toNat (W - O).toNat fuel s).map (pyJoin [' '])) := by
  intro fuel
  induction fuel with
  | zero =>
    intro s h
    omega
  | succ fuel ih =>
    intro s hfuel
    by_cases hs : s < tokens.length
    · have hcast : (s : Int) < (tokens.length : Int) := by exact_mod_cast hs
      have hstep : (s : Int) + (W - O) = ((s + (W - O).toNat : Nat) : Int) := by omega
      have hrec := ih (s + (W - O).toNat) (by omega)
      simp only [chunkLoop, wordChunksF, if_pos hcast, if_pos hs, hstep, hrec]
      rw [pySlice_window tokens s W (by omega) hs]
      simp
    · have hcast : ¬ ((s : Int) < (tokens.length : Int)) := by exact_mod_cast hs
      simp [chunkLoop, wordChunksF, if_neg hcast, if_neg hs]

/-- Chunking with valid parameters always terminates, with the word-level
windows as result. -/
theorem split_eq_wordChunksF (text : List Char) (W O : Int)
    (h0 : 0 ≤ O) (h1 : O < W) :
    split_text_into_chunks text W O =
      some ((wordChunksF (pySplit text) W.toNat (W - O).toNat
        ((pySplit text).length + 1) 0).map (pyJoin [' '])) := by
  unfold split_text_into_chunks
  exact_mod_cast chunkLoop_eq_wordChunksF (pySplit text) W O h0 h1
    ((pySplit text).length + 1) 0 (by omega)

/-- The word-level windows do not depend on the fuel, once it is sufficient. -/
theorem wordChunksF_congr (tokens : List (List Char)) (W d : Nat) (hd : 0 < d) :
    ∀ f1 f2 s, tokens.length - s < f1 → tokens.length - s < f2 →
      wordChunksF tokens W d f1 s = wordChunksF tokens W d f2 s := by
  intro f1
  induction f1 with
  | zero =>
    intro f2 s h1 h2
    omega
  | succ f1 ih =>
    intro f2 s h1 h2
    cases f2 with
    | zero => omega
    | succ f2 =>
      by_cases hs : s < tokens.length
      · simp only [wordChunksF, if_pos hs]
        rw [ih f2 (s + d) (by omega) (by omega)]
      · simp only [wordChunksF, if_neg hs]

/-- One-step unfolding of the word-level windows at constant fuel. -/
theorem wordChunksF_step (tokens : List (List Char)) (W d : Nat) (hd : 0 < d)
    (fuel s : Nat) (h : tokens.length - s < fuel) :
    wordChunksF tokens W d fuel s =
      if s < tokens.length then
        (tokens.drop s).take W :: wordChunksF tokens W d fuel (s + d)
      else [] := by
  cases fuel with
  | zero => omega
  | succ f =>
    conv_lhs => rw [wordChunksF]
    by_cases hs : s < tokens.length
    · rw [if_pos hs, if_pos hs]
      rw [wordChunksF_congr tokens W d hd f (f + 1) (s + d) (by omega) (by omega)]
    · rw [if_neg hs, if_neg hs]

/-- The window list is empty exactly when the start is already past the end. -/
theorem wordChunksF_eq_nil_iff (tokens : List (List Char)) (W d : Nat) (hd : 0 < d)
    (fuel s : Nat) (h : tokens.length - s < fuel) :
    wordChunksF tokens W d fuel s = [] ↔ tokens.length ≤ s := by
  rw [wordChunksF_step tokens W d hd fuel s h]
  by_cases hs : s < tokens.length
  · rw [if_pos hs]
    constructor
    · intro hc
      exact absurd hc (List.cons_ne_nil _ _)
    · intro hc
      omega
  · rw [if_neg hs]
    constructor
    · intro _
      omega
    · intro _
      rfl

/-- Number of windows: the ceiling of the remaining word count over the step. -/
theorem wordChunksF_length (tokens : List (List Char)) (W d : Nat) (hd : 0 < d) :
    ∀ fuel s, tokens.length - s < fuel →
      (wordChunksF tokens W d fuel s).length = (tokens.length - s + d - 1) / d := by
  intro fuel
  induction fuel with
  | zero =>
    intro s h
    omega
  | succ fuel ih =>
    intro s h
    by_cases hs : s < tokens.length
    · simp only [wordChunksF, if_pos hs, List.length_cons]
      rw [ih (s + d) (by omega)]
      have hm1 : 1 ≤ tokens.length - s := by omega
      rcases le_or_lt d (tokens.length - s) with hcase | hcase
      · have e1 : tokens.length - (s + d) + d - 1 = tokens.length - s - 1 := by omega
        have e2 : tokens.length - s + d - 1 = (tokens.length - s - 1) + d := by omega
        rw [e1, e2, Nat.add_div_right _ hd]
      · have e1 : tokens.length - (s + d) + d - 1 = d - 1 := by omega
        have e2 : tokens.length - s + d - 1 = (tokens.length - s - 1) + d := by omega
        rw [e1, e2, Nat.add_div_right _ hd,
          Nat.div_eq_of_lt (by omega), Nat.div_eq_of_lt (by omega)]
    · simp only [wordChunksF, if_neg hs, List.length_nil]
      have e : tokens.length - s = 0 := by omega
      rw [e, Nat.zero_add]
      exact (Nat.div_eq_of_lt (by omega)).symm

/-- Reconstruction: the first `d` words of every window except the last,
followed by the whole last window, give back the words from `s` on. -/
theorem wordChunksF_reconstruct (tokens : List (List Char)) (W d : Nat)
    (hd : 0 < d) (hdW : d ≤ W) :
    ∀ fuel s, tokens.length - s < fuel →
      ((wordChunksF tokens W d fuel s).dropLast.map (fun ws => ws.take d)).flatten
        ++ (wordChunksF tokens W d fuel s).getLastD [] = tokens.drop s := by
  intro fuel
  induction fuel with
  | zero =>
    intro s h
    omega
  | succ fuel ih =>
    intro s h
    by_cases hs : s < tokens.length
    · simp only [wordChunksF, if_pos hs]
      rcases hrest : wordChunksF tokens W d fuel (s + d) with _ | ⟨r0, rs⟩
      · have hsd : tokens.length ≤ s + d :=
          (wordChunksF_eq_nil_iff tokens W d hd fuel (s + d) (by omega)).mp hrest
        simp only [List.dropLast_single, List.map_nil, List.flatten_nil, List.nil_append,
          List.getLastD_cons, List.getLastD_nil]
        refine List.take_of_length_le ?_
        simp only [List.length_drop]
        omega
      · have hIH := ih (s + d) (by omega)
        rw [hrest] at hIH
        simp only [List.getLastD_cons] at hIH
        simp only [List.dropLast_cons₂, List.map_cons, List.flatten_cons, List.getLastD_cons]
        rw [List.append_assoc, hIH]
        rw [List.take_take, min_eq_left hdW]
        have hdd : tokens.drop (s + d) = (tokens.drop s).drop d := by
          rw [List.drop_drop]
        rw [hdd, List.take_append_drop]
    · simp only [wordChunksF, if_neg hs, List.dropLast_nil, List.map_nil, List.flatten_nil,
        List.nil_append, List.getLastD_nil]
      exact (List.drop_eq_nil_of_le (by omega)).symm

/-- Every word of every window comes from the token list. -/
theorem wordChunksF_mem (tokens : List (List Char)) (W d : Nat) :
    ∀ fuel s, ∀ c ∈ wordChunksF tokens W d fuel s, ∀ w ∈ c, w ∈ tokens := by
  intro fuel
  induction fuel with
  | zero =>
    intro s c hc
    simp [wordChunksF] at hc
  | succ fuel ih =>
    intro s c hc w hw
    by_cases hs : s < tokens.length
    · simp only [wordChunksF, if_pos hs, List.mem_cons] at hc
      rcases hc with hc | hc
      · subst hc
        exact List.drop_subset s tokens (List.take_subset _ _ hw)
      · exact ih (s + d) c hc w hw
    · simp [wordChunksF, if_neg hs] at hc

/-- Splitting the joined windows gives back the windows, when every word of
the underlying token list is clean. -/
theorem pySplit_map_join (l : List (List (List Char)))
    (h : ∀ c ∈ l, ∀ w ∈ c, w ≠ [] ∧ ∀ ch ∈ w, pyIsSpace ch = false) :
    (l.map (pyJoin [' '])).map pySplit = l := by
  rw [List.map_map]
  have : ∀ c ∈ l, (pySplit ∘ pyJoin [' ']) c = id c := by
    intro c hc
    simp only [Function.comp_apply, id_eq]
    exact pySplit_pyJoin c (h c hc)
  rw [List.map_congr_left this, List.map_id]

/-- With overlap at least the window size and a non-empty token list, the
loop condition stays true forever: no fuel bound makes the loop return. -/
theorem chunkLoop_no_fuel (tokens : List (List Char)) (W O : Int)
    (hWO : W ≤ O) (hne : tokens ≠ []) :
    ∀ fuel (s : Int), s ≤ 0 → chunkLoop tokens W O fuel s = none := by
  intro fuel
  induction fuel with
  | zero =>
    intro s _
    rfl
  | succ fuel ih =>
    intro s hs
    have hlen : 0 < tokens.length := List.length_pos.mpr hne
    have hcond : s < (tokens.length : Int) := by omega
    simp only [chunkLoop, if_pos hcond]
    rw [ih (s + (W - O)) (by omega)]

/-- Splitting with overlap at least the window size never terminates on
non-empty text, modelled by the fueled loop returning no result. -/
theorem split_no_terminate (text : List Char) (W O : Int) (hWO : W ≤ O)
    (hne : pySplit text ≠ []) : split_text_into_chunks text W O = none :=
  chunkLoop_no_fuel (pySplit text) W O hWO hne _ 0 le_rfl

/-- The substring test agrees with the infix relation. -/
theorem containsSub_iff (needle : List Char) :
    ∀ hay, containsSub needle hay = true ↔ needle <:+: hay := by
  intro hay
  induction hay with
  | nil =>
    simp [containsSub, List.isEmpty_iff]
  | cons c rest ih =>
    simp only [containsSub, Bool.or_eq_true, List.isPrefixOf_iff_prefix, ih]
    rw [ List.infix_cons_iff]

/-- Every chunk recorded as queried passed the budget test. -/
theorem chunkSearch_queried (question : List Char)
    (model : List Char → Except (List Char) (List Char)) :
    ∀ chunks c, c ∈ (chunkSearch question model chunks).2 → budgetOk question c = true := by
  intro chunks
  induction chunks with
  | nil =>
    intro c hc
    simp [chunkSearch] at hc
  | cons chunk rest ih =>
    intro c hc
    by_cases hb : budgetOk question chunk
    · by_cases ha : acceptAnswer (query_local_model model (buildPrompt chunk question))
      · simp only [chunkSearch, if_pos hb, if_pos ha, List.mem_singleton] at hc
        subst hc
        exact hb
      · simp only [chunkSearch, if_pos hb, if_neg ha, List.mem_cons] at hc
        rcases hc with hc | hc
        · subst hc
          exact hb
        · exact ih c hc
    · simp only [chunkSearch, if_neg hb] at hc
      exact ih c hc

/-- If every budget-eligible chunk is rejected, the loop finds no answer. -/
theorem chunkSearch_none (question : List Char)
    (model : List Char → Except (List Char) (List Char)) :
    ∀ chunks, (∀ c ∈ chunks, budgetOk question c = true →
        acceptAnswer (query_local_model model (buildPrompt c question)) = false) →
      (chunkSearch question model chunks).1 = none := by
  intro chunks
  induction chunks with
  | nil =>
    intro _
    rfl
  | cons chunk rest ih =>
    intro h
    by_cases hb : budgetOk question chunk
    · have ha : acceptAnswer (query_local_model model (buildPrompt chunk question)) = false :=
        h chunk (by simp) hb
      simp only [chunkSearch, if_pos hb, ha, Bool.false_eq_true, if_false]
      exact ih (fun c hc hbc => h c (by simp [hc]) hbc)
    · simp only [chunkSearch, if_neg hb]
      exact ih (fun c hc hbc => h c (by simp [hc]) hbc)

/-- The loop stops at the first budget-eligible accepted chunk: it returns
that response and has queried exactly the eligible earlier chunks plus it. -/
theorem chunkSearch_first (question : List Char)
    (model : List Char → Except (List Char) (List Char)) :
    ∀ (pre : List (List Char)) (c : List Char) (post : List (List Char)),
      (∀ x ∈ pre, budgetOk question x = true →
        acceptAnswer (query_local_model model (buildPrompt x question)) = false) →
      budgetOk question c = true →
      acceptAnswer (query_local_model model (buildPrompt c question)) = true →
      chunkSearch question model (pre ++ c :: post) =
        (some (query_local_model model (buildPrompt c question)),
         pre.filter (budgetOk question) ++ [c]) := by
  intro pre
  induction pre with
  | nil =>
    intro c post h hb ha
    simp only [List.nil_append, chunkSearch, if_pos hb, if_pos ha, List.filter_nil]
  | cons x pre ih =>
    intro c post h hb ha
    by_cases hbx : budgetOk question x
    · have hax : acceptAnswer (query_local_model model (buildPrompt x question)) = false :=
        h x (by simp) hbx
      simp only [List.cons_append, List.append_eq, chunkSearch, if_pos hbx, hax,
        Bool.false_eq_true, if_false]
      rw [ih c post (fun y hy => h y (by simp [hy])) hb ha]
      simp [List.filter_cons_of_pos, hbx]
    · simp only [List.cons_append, List.append_eq, chunkSearch, if_neg hbx]
      rw [ih c post (fun y hy => h y (by simp [hy])) hb ha]
      simp [List.filter_cons_of_neg, hbx]

/-- Variant inner loop: if every eligible chunk gets the refusal sentence,
no answer is found and exactly the eligible chunks were queried. -/
theorem pdfChunkSearch_none (question : List Char)
    (model : List Char → Except (List Char) (List Char)) :
    ∀ chunks, (∀ c ∈ chunks, budgetOk question c = true →
        query_gpt model (gptPrompt c question) = refusalExact) →
      pdfChunkSearch question model chunks = (none, chunks.filter (budgetOk question)) := by
  intro chunks
  induction chunks with
  | nil =>
    intro _
    rfl
  | cons chunk rest ih =>
    intro h
    by_cases hb : budgetOk question chunk
    · have hr : query_gpt model (gptPrompt chunk question) = refusalExact :=
        h chunk (by simp) hb
      simp only [pdfChunkSearch, if_pos hb, hr, if_pos rfl]
      rw [ih (fun c hc hbc => h c (by simp [hc]) hbc)]
      simp [List.filter_cons_of_pos, hb]
    · simp only [pdfChunkSearch, if_neg hb]
      rw [ih (fun c hc hbc => h c (by simp [hc]) hbc)]
      simp [List.filter_cons_of_neg, hb]

/-- Variant inner loop: it stops at the first eligible chunk whose response
differs from the refusal sentence. -/
theorem pdfChunkSearch_first (question : List Char)
    (model : List Char → Except (List Char) (List Char)) :
    ∀ (cpre : List (List Char)) (c : List Char) (cpost : List (List Char)),
      (∀ x ∈ cpre, budgetOk question x = true →
        query_gpt model (gptPrompt x question) = refusalExact) →
      budgetOk question c = true →
      query_gpt model (gptPrompt c question) ≠ refusalExact →
      pdfChunkSearch question model (cpre ++ c :: cpost) =
        (some (query_gpt model (gptPrompt c question)),
         cpre.filter (budgetOk question) ++ [c]) := by
  intro cpre
  induction cpre with
  | nil =>
    intro c post h hb ha
    simp only [List.nil_append, pdfChunkSearch, if_pos hb, if_neg ha, List.filter_nil]
  | cons x cpre ih =>
    intro c post h hb ha
    by_cases hbx : budgetOk question x
    · have hax : query_gpt model (gptPrompt x question) = refusalExact :=
        h x (by simp) hbx
      simp only [List.cons_append, List.append_eq, pdfChunkSearch, if_pos hbx, hax,
        eq_self_iff_true, if_true]
      rw [ih c post (fun y hy => h y (by simp [hy])) hb ha]
      simp [List.filter_cons_of_pos, hbx]
    · simp only [List.cons_append, List.append_eq, pdfChunkSearch, if_neg hbx]
      rw [ih c post (fun y hy => h y (by simp [hy])) hb ha]
      simp [List.filter_cons_of_neg, hbx]

/-- Claim C8: sources are consulted in priority order and chunks within a
source in order; at the first budget-eligible chunk whose response is
accepted the loop returns that response immediately, and the chunks queried
are exactly the eligible ones up to and including it, so no query reaches a
later chunk or source and at most one accepted answer is surfaced. -/
theorem retrieval_first_accept (question : List Char)
    (model : List Char → Except (List Char) (List Char)) :
    ∀ (tpre : List (List Char)) (t : List Char) (tpost : List (List Char))
      (cpre : List (List Char)) (c : List Char) (cpost : List (List Char)),
      (∀ t2 ∈ tpre, ∀ x ∈ splitD t2, budgetOk question x = true →
        query_gpt model (gptPrompt x question) = refusalExact) →
      splitD t = cpre ++ c :: cpost →
      (∀ x ∈ cpre, budgetOk question x = true →
        query_gpt model (gptPrompt x question) = refusalExact) →
      budgetOk question c = true →
      query_gpt model (gptPrompt c question) ≠ refusalExact →
      pdfSearch question model (tpre ++ t :: tpost) =
        (some (query_gpt model (gptPrompt c question)),
         (tpre.map (fun t2 => (splitD t2).filter (budgetOk question))).flatten
           ++ (cpre.filter (budgetOk question) ++ [c])) := by
  intro tpre
  induction tpre with
  | nil =>
    intro t tpost cpre c cpost h1 h2 h3 hb ha
    simp only [List.nil_append, pdfSearch]
    rw [h2, pdfChunkSearch_first question model cpre c cpost h3 hb ha]
    simp
  | cons t2 tpre ih =>
    intro t tpost cpre c cpost h1 h2 h3 hb ha
    have hnone := pdfChunkSearch_none question model (splitD t2) (h1 t2 (by simp))
    simp only [List.cons_append, List.append_eq, pdfSearch, hnone]
    rw [ih t tpost cpre c cpost (fun y hy => h1 y (by simp [hy])) h2 h3 hb ha]
    simp [List.append_assoc]

/-- Claim C1: the spec demands that overlap at least the window size fail
fast with an InvalidConfiguration error, but the code performs no such check
and its loop never terminates on non-empty input: at the failing input a one
word text with window 2 and overlap 2, the loop returns no result under any
fuel bound, so no error is ever raised to the caller. -/
theorem overlap_ge_window_diverges :
    (∀ fuel, chunkLoop (pySplit ['a']) 2 2 fuel 0 = none) ∧
    split_text_into_chunks ['a'] 2 2 = none := by
  constructor
  · intro fuel
    exact chunkLoop_no_fuel (pySplit ['a']) 2 2 (by omega) (by decide) fuel 0 le_rfl
  · exact split_no_terminate ['a'] 2 2 (by omega) (by decide)

/-- Claim C2 counterexample: the backend raises on the first two chunks with
marker-free messages and would answer Paris on the third, yet the loop
accepts the first error-prefixed string and returns it, never reaching the
third chunk: the error is not mapped to a rejected result. -/
theorem backend_error_accepted_counterexample :
    (chunkSearch ['q'] c2cexModel [['a'], ['b'], ['c']]).1 =
      some (errPrefix ++ ['x']) ∧
    (chunkSearch ['q'] c2cexModel [['a'], ['b'], ['c']]).1 ≠ some "Paris".toList :=
  ⟨by decide, by decide⟩

/-- Claim C2 amended: exceptions are caught at the query call site (the
embedding is total, so nothing propagates) and turned into error strings;
such a response is rejected only when it contains a refusal marker, and when
the responses of the first two chunks are rejected while the third is
accepted, the loop returns the third response. -/
theorem rejected_first_two_then_third (question : List Char)
    (model : List Char → Except (List Char) (List Char)) (c1 c2 c3 : List Char)
    (hb1 : budgetOk question c1 = true) (hb2 : budgetOk question c2 = true)
    (hb3 : budgetOk question c3 = true)
    (h1 : acceptAnswer (query_local_model model (buildPrompt c1 question)) = false)
    (h2 : acceptAnswer (query_local_model model (buildPrompt c2 question)) = false)
    (h3 : acceptAnswer (query_local_model model (buildPrompt c3 question)) = true) :
    (chunkSearch question model [c1, c2, c3]).1 =
      some (query_local_model model (buildPrompt c3 question)) := by
  have hpre : ∀ x ∈ [c1, c2], budgetOk question x = true →
      acceptAnswer (query_local_model model (buildPrompt x question)) = false := by
    intro x hx
    rcases List.mem_cons.mp hx with h | h
    · subst h
      intro _
      exact h1
    · rcases List.mem_cons.mp h with h | h
      · subst h
        intro _
        exact h2
      · simp at h
  have hfirst := chunkSearch_first question model [c1, c2] c3 [] hpre hb3 h3
  have hfst := congrArg Prod.fst hfirst
  simpa using hfst

/-- Claim C2 amended, witness: the backend raises with marker-containing
messages on the first two chunks and answers Paris on the third; the loop
returns Paris. -/
theorem rejected_first_two_then_third_witness :
    (chunkSearch ['q'] c2witModel [['a'], ['b'], ['c']]).1 = some "Paris".toList := by
  have h := rejected_first_two_then_third ['q'] c2witModel ['a'] ['b'] ['c']
    (by decide) (by decide) (by decide) (by decide) (by decide) (by decide)
  rw [h]
  decide

/-- Claim C3 counterexample: the empty string and an error-prefixed string
are both accepted by the code, while the claim says both are rejected. -/
theorem accept_empty_and_error_counterexample :
    acceptAnswer [] = true ∧ acceptAnswer (errPrefix ++ "hi".toList) = true :=
  ⟨by decide, by decide⟩

/-- Claim C3 amended: the acceptance check rejects a response exactly when
it contains one of the two configured markers; every other string, including
the empty string and error-prefixed strings, is accepted. -/
theorem acceptAnswer_false_iff (r : List Char) :
    acceptAnswer r = false ↔ (markerIDK <:+: r ∨ markerS <:+: r) := by
  rw [← containsSub_iff markerIDK r, ← containsSub_iff markerS r]
  unfold acceptAnswer
  cases hA : containsSub markerIDK r <;> cases hB : containsSub markerS r <;> simp [hA, hB]

/-- Claim C4 counterexample: the five word text with window 3 and overlap 1
yields 3 chunks, while the claimed formula gives ceil((5 - 1)/(3 - 1)) = 2. -/
theorem chunk_count_counterexample :
    estimate_tokens "a b c d e".toList = 5 ∧
    (split_text_into_chunks "a b c d e".toList 3 1).map List.length = some 3 :=
  ⟨by decide, by decide⟩

/-- Claim C4 amended: for valid parameters the number of chunks equals
ceil(len(T) / (W - O)), the word count divided by the step, rounded up
(which is 0 for empty text). -/
theorem chunk_count (text : List Char) (W O : Int)
    (h0 : 0 ≤ O) (h1 : O < W) :
    (split_text_into_chunks text W O).map List.length =
      some ((estimate_tokens text + (W - O).toNat - 1) / (W - O).toNat) := by
  rw [split_eq_wordChunksF text W O h0 h1]
  simp only [Option.map_some', List.length_map]
  rw [wordChunksF_length (pySplit text) W.toNat (W - O).toNat (by omega)
    ((pySplit text).length + 1) 0 (by omega)]
  simp [estimate_tokens]

/-- Claim C4 amended, witness at a three word text with window 2, overlap 1. -/
theorem chunk_count_witness :
    (split_text_into_chunks "a b c".toList 2 1).map List.length = some 3 := by
  have h := chunk_count "a b c".toList 2 1 (by decide) (by decide)
  rw [h]
  decide

/-- Claim C5 counterexample: a five word text with window 6 and overlap 4 has
fewer words than the window yet yields 3 chunks, not exactly one. -/
theorem small_text_chunks_counterexample :
    estimate_tokens "a b c d e".toList = 5 ∧
    (split_text_into_chunks "a b c d e".toList 6 4).map List.length = some 3 :=
  ⟨by decide, by decide⟩

/-- Claim C5 amended: for valid parameters, empty or all-whitespace text
yields zero chunks, and non-empty text with at most W - O words yields
exactly one chunk. -/
theorem split_edge_cases (text : List Char) (W O : Int)
    (h0 : 0 ≤ O) (h1 : O < W) :
    (pySplit text = [] → split_text_into_chunks text W O = some []) ∧
    (1 ≤ estimate_tokens text → estimate_tokens text ≤ (W - O).toNat →
      (split_text_into_chunks text W O).map List.length = some 1) := by
  constructor
  · intro hempty
    rw [split_eq_wordChunksF text W O h0 h1, hempty]
    simp [wordChunksF]
  · intro hge hle
    rw [split_eq_wordChunksF text W O h0 h1]
    simp only [Option.map_some', List.length_map]
    rw [wordChunksF_length (pySplit text) W.toNat (W - O).toNat (by omega)
      ((pySplit text).length + 1) 0 (by omega)]
    simp only [estimate_tokens] at hge hle
    have hd : 0 < (W - O).toNat := by omega
    have e2 : (pySplit text).length - 0 + (W - O).toNat - 1 =
        ((pySplit text).length - 1) + (W - O).toNat := by omega
    rw [e2, Nat.add_div_right _ hd, Nat.div_eq_of_lt (by omega)]

/-- Claim C5 amended, witness: a one word text gives exactly one chunk and an
all-whitespace text gives zero chunks. -/
theorem split_edge_cases_witness :
    split_text_into_chunks " ".toList 3 1 = some [] ∧
    (split_text_into_chunks ['a'] 3 1).map List.length = some 1 := by
  constructor
  · exact (split_edge_cases " ".toList 3 1 (by decide) (by decide)).1 (by decide)
  · exact (split_edge_cases ['a'] 3 1 (by decide) (by decide)).2 (by decide) (by decide)

/-- Claim C6: for valid parameters the chunking terminates and taking the
first W - O words of every chunk except the last, followed by the whole last
chunk, reconstructs the word sequence of the text exactly. -/
theorem chunks_reconstruct (text : List Char) (W O : Int)
    (h0 : 0 ≤ O) (h1 : O < W) :
    ∃ chunks, split_text_into_chunks text W O = some chunks ∧
      (((chunks.map pySplit).dropLast.map (fun ws => ws.take (W - O).toNat)).flatten
        ++ (chunks.map pySplit).getLastD []) = pySplit text := by
  refine ⟨_, split_eq_wordChunksF text W O h0 h1, ?_⟩
  rw [pySplit_map_join _ (fun c hc w hw =>
    pySplit_clean text w (wordChunksF_mem (pySplit text) W.toNat (W - O).toNat _ 0 c hc w hw))]
  have h := wordChunksF_reconstruct (pySplit text) W.toNat (W - O).toNat
    (by omega) (by omega) ((pySplit text).length + 1) 0 (by omega)
  simpa using h

/-- Claim C6 witness at the five word text with window 3 and overlap 1. -/
theorem chunks_reconstruct_witness :
    ∃ chunks, split_text_into_chunks "a b c d e".toList 3 1 = some chunks ∧
      (((chunks.map pySplit).dropLast.map (fun ws => ws.take ((3 : Int) - 1).toNat)).flatten
        ++ (chunks.map pySplit).getLastD []) = pySplit "a b c d e".toList :=
  chunks_reconstruct "a b c d e".toList 3 1 (by decide) (by decide)

/-- Claim C7: the token estimator is the whitespace word count, so joining
clean words with single spaces and estimating gives back the number of
words; the function is total and returns a natural number. -/
theorem estimate_tokens_join (ws : List (List Char))
    (h : ∀ w ∈ ws, w ≠ [] ∧ ∀ c ∈ w, pyIsSpace c = false) :
    estimate_tokens (pyJoin [' '] ws) = ws.length :=
  estimate_pyJoin ws h

/-- Claim C7 witness on two concrete words. -/
theorem estimate_tokens_join_witness :
    estimate_tokens (pyJoin [' '] [['h', 'i'], ['y', 'o']]) = 2 :=
  estimate_tokens_join [['h', 'i'], ['y', 'o']] (by decide)

/-- Claim C8 witness: three one-chunk documents, the first refused, the
second accepted: the search returns the second answer having queried exactly
the first two chunks and never touching the third document. -/
theorem retrieval_first_accept_witness :
    pdfSearch ['q'] c8Model [['a'], ['b'], ['c']] =
      (some "Paris".toList, [['a'], ['b']]) := by
  have h := retrieval_first_accept ['q'] c8Model [['a']] ['b'] [['c']] [] ['b'] []
    (by decide) (by decide) (by decide) (by decide) (by decide)
  exact h.trans (by decide)

/-- Claim C9: when every budget-eligible chunk of the document is rejected,
the session outcome is the fixed not-found message; the embedding is a total
function, so no exception can escape. -/
theorem session_not_found (question pdfText : List Char)
    (model : List Char → Except (List Char) (List Char))
    (h : ∀ c ∈ splitD pdfText, budgetOk question c = true →
      acceptAnswer (query_local_model model (buildPrompt c question)) = false) :
    answerSession question pdfText model = notFoundMsg := by
  unfold answerSession
  rw [chunkSearch_none question model (splitD pdfText) h]

/-- Claim C9 witness: a backend that always answers with a marker sentence
leads to the fixed not-found message. -/
theorem session_not_found_witness :
    answerSession ['q'] "a b".toList c9Model = notFoundMsg :=
  session_not_found ['q'] "a b".toList c9Model (by decide)

/-- Claim C10 amended: a full chunk of exactly 16000 words fails the budget
test for any question with at least one word, and such a chunk is never
queried by the loop; hence only chunks with fewer than 16000 words can be
queried, which need not be only the final chunk. -/
theorem full_chunk_never_queried (question chunk : List Char)
    (model : List Char → Except (List Char) (List Char)) (chunks : List (List Char))
    (h1 : estimate_tokens chunk = 16000) (h2 : 1 ≤ estimate_tokens question) :
    budgetOk question chunk = false ∧ chunk ∉ (chunkSearch question model chunks).2 := by
  have hb : budgetOk question chunk = false := by
    unfold budgetOk
    rw [h1]
    simp only [decide_eq_false_iff_not]
    omega
  refine ⟨hb, ?_⟩
  intro hmem
  have hq := chunkSearch_queried question model chunks chunk hmem
  rw [hb] at hq
  simp at hq

/-- Claim C10 amended, witness at a 16000 word chunk and a one word question. -/
theorem full_chunk_never_queried_witness :
    budgetOk ['q'] (chunkA 16000) = false ∧
    (chunkA 16000) ∉ (chunkSearch ['q'] okNilModel [['b']]).2 := by
  refine full_chunk_never_queried ['q'] (chunkA 16000) okNilModel [['b']] ?_ (by decide)
  unfold chunkA
  rw [estimate_pyJoin]
  · exact List.length_replicate 16000 ['a']
  · intro w hw
    rw [List.eq_of_mem_replicate hw]
    exact ⟨by decide, by decide⟩

/-- Claim C10 counterexample: a 30500 word document splits into three chunks
of 16000, 15500 and 500 words; the middle chunk is not the final one and is
not full, and it passes the budget test with a one word question, so a
non-final chunk can be queried, contrary to the claim that only the final
shorter chunk ever can. -/
theorem nonfinal_short_chunk_queryable :
    split_text_into_chunks (chunkA 30500) 16000 1000 =
      some [chunkA 16000, chunkA 15500, chunkA 500] ∧
    estimate_tokens (chunkA 16000) = 16000 ∧
    budgetOk ['q'] (chunkA 16000) = false ∧
    estimate_tokens (chunkA 15500) = 15500 ∧
    budgetOk ['q'] (chunkA 15500) = true := by
  have hclean : ∀ n : Nat, ∀ w ∈ List.replicate n (['a'] : List Char),
      w ≠ [] ∧ ∀ c ∈ w, pyIsSpace c = false := by
    intro n w hw
    rw [List.eq_of_mem_replicate hw]
    exact ⟨by decide, by decide⟩
  have hest : ∀ n : Nat, estimate_tokens (chunkA n) = n := by
    intro n
    unfold chunkA
    rw [estimate_pyJoin _ (hclean n)]
    exact List.length_replicate n ['a']
  have hq1 : estimate_tokens ['q'] = 1 := by decide
  have hsplit : pySplit (chunkA 30500) = List.replicate 30500 ['a'] := by
    unfold chunkA
    exact pySplit_pyJoin _ (hclean 30500)
  have hlen : (List.replicate 30500 (['a'] : List Char)).length = 30500 :=
    List.length_replicate _ _
  have hstep : ∀ s : Nat, s < 30500 →
      wordChunksF (List.replicate 30500 (['a'] : List Char)) 16000 15000 30501 s =
        ((List.replicate 30500 (['a'] : List Char)).drop s).take 16000 ::
          wordChunksF (List.replicate 30500 (['a'] : List Char)) 16000 15000 30501
            (s + 15000) := by
    intro s hs
    rw [wordChunksF_step _ 16000 15000 (by omega) 30501 s (by rw [hlen]; omega)]
    rw [if_pos (show s < (List.replicate 30500 (['a'] : List Char)).length by
      rw [hlen]; omega)]
  have hnil : wordChunksF (List.replicate 30500 (['a'] : List Char)) 16000 15000
      30501 45000 = [] := by
    rw [wordChunksF_step _ 16000 15000 (by omega) 30501 45000 (by rw [hlen]; omega)]
    rw [if_neg (show ¬ 45000 < (List.replicate 30500 (['a'] : List Char)).length by
      rw [hlen]; omega)]
  have e0 : wordChunksF (List.replicate 30500 (['a'] : List Char)) 16000 15000 30501 0 =
      [List.replicate 16000 (['a'] : List Char), List.replicate 15500 ['a'],
        List.replicate 500 ['a']] := by
    rw [hstep 0 (by omega)]
    simp only [Nat.zero_add]
    rw [hstep 15000 (by omega)]
    norm_num
    rw [hstep 30000 (by omega)]
    norm_num
    exact hnil
  refine ⟨?_, hest 16000, ?_, hest 15500, ?_⟩
  · rw [split_eq_wordChunksF (chunkA 30500) 16000 1000 (by omega) (by omega), hsplit, hlen]
    norm_num
    rw [show ((16000 : Int).toNat) = 16000 from rfl,
      show ((15000 : Int).toNat) = 15000 from rfl, e0]
    simp only [List.map_cons, List.map_nil, chunkA]
  · unfold budgetOk
    rw [hest 16000, hq1]
    decide
  · unfold budgetOk
    rw [hest 15500, hq1]
    decide

example : pySplit "a b  c".toList = [['a'], ['b'], ['c']] := by decide

example : split_text_into_chunks "a b c d e".toList 3 1 =
    some ["a b c".toList, "c d e".toList, "e".toList] := by decide

example : estimate_tokens "a b c".toList = 3 := by decide

example : acceptAnswer "Sorry, no".toList = false := by decide

example : acceptAnswer [] = true := by decide
